import Mathlib

/-!
Verification of the RipRaven acquisition engine (pattern resolver, probe
downloader, chapter store, chapter-list cache and prefetch scheduler)
against its natural-language specification.  The Python sources are
shallowly embedded: filesystem effects become explicit state passing over a
small `FS` record, HTTP fetches become boolean oracles, and Python dicts
become association lists.
-/

namespace RipRaven

/-- A filesystem path, as its list of components. -/
abbrev DiskPath := List String

/-- Minimal filesystem state: the set of directories and the set of files,
each identified by its path.  Creation order is kept but irrelevant. -/
structure FS where
  dirs : List DiskPath
  files : List DiskPath
deriving DecidableEq

/-- Create a file if absent (writing an existing file leaves the set
unchanged; page files of one run are pairwise distinct anyway). -/
def addFile (fs : FS) (p : DiskPath) : FS :=
  if p ∈ fs.files then fs else ⟨fs.dirs, fs.files ++ [p]⟩

/-- `mkdir(parents=True, exist_ok=True)` for the directory the engine
later queries (ancestor directories are not tracked; no claim inspects
them). -/
def mkdirAll (fs : FS) (d : DiskPath) : FS :=
  if d ∈ fs.dirs then fs else ⟨fs.dirs ++ [d], fs.files⟩

/-- Python's `f"page_{n:03d}"` padding: zero-pad to width 3, wider numbers
kept as is. -/
def padNum3 (n : Nat) : String :=
  if n < 10 then "00" ++ toString n
  else if n < 100 then "0" ++ toString n
  else toString n

/-- Match a literal character sequence, returning the rest (used both by
`pyReplaceAux` and by the regex parsers below). -/
def parseLit : List Char → List Char → Option (List Char)
  | [], cs => some cs
  | _ :: _, [] => none
  | l :: ls, c :: cs => if c = l then parseLit ls cs else none

/-- The characters after the last `.` of a name, `none` when it has no
dot. -/
def afterLastDot : List Char → Option (List Char)
  | [] => none
  | c :: rest =>
    match afterLastDot rest with
    | some s => some s
    | none => if c = '.' then some rest else none

/-- `pathlib.Path(name).suffix`: the final dot-extension including the
dot, empty for a name without a dot (such as the `completed` marker;
leading-dot corner cases like `".hidden"` never arise here). -/
def pathSuffix (name : String) : String :=
  match afterLastDot name.data with
  | some s => String.mk ('.' :: s)
  | none => ""

/-- Python's `str.replace`: replace non-overlapping occurrences of a
nonempty pattern left to right.  The structural fuel `s.data.length`
suffices since each step consumes at least one character. -/
def pyReplaceAux (pat rep : List Char) : Nat → List Char → List Char
  | _, [] => []
  | 0, cs => cs
  | fuel + 1, c :: cs =>
    match parseLit pat (c :: cs) with
    | some rest => rep ++ pyReplaceAux pat rep fuel rest
    | none => c :: pyReplaceAux pat rep fuel cs

/-- Python's `str.replace` on strings. -/
def pyReplace (s pat rep : String) : String :=
  String.mk (pyReplaceAux pat.data rep.data s.data.length s.data)

/-- Python's `str.lower` (the names involved are ASCII). -/
def pyToLower (s : String) : String :=
  String.mk (s.data.map Char.toLower)

/-- The recognized image extensions of `get_chapter_status` /
`get_image_files` (source: `async_downloader.py` line 392,
`web_reader.py` line 456). -/
def imageExtensions : List String := [".jpg", ".jpeg", ".png", ".gif", ".bmp", ".webp"]

/-- Whether a file name counts as a page image (suffix lowercased and
looked up in the recognized set). -/
def isImageFile (name : String) : Bool :=
  decide (pyToLower (pathSuffix name) ∈ imageExtensions)

/-- Names of the paths lying directly inside `dir`. -/
def namesIn (paths : List DiskPath) (dir : DiskPath) : List String :=
  paths.filterMap (fun p => if p.dropLast = dir then p.getLast? else none)

/-- The number of files with a recognized image extension directly in
`dir` — the page count of `get_chapter_status` / `scan_series`. -/
def countImages (fs : FS) (dir : DiskPath) : Nat :=
  ((namesIn fs.files dir).filter isImageFile).length

/-- The fixed ordered extension candidates tried per page index
(source: `async_downloader.py` line 94). -/
def extCandidates : List String := ["jpg", "png", "jpeg", "webp"]

/-- Try each candidate extension in order for page index `num`; the first
one whose URL the fetch oracle accepts wins and the rest are skipped
(source: `async_downloader.py` lines 97-124). -/
def firstSuccess (fetch : String → Bool) (basePattern : String) (num : Nat) : Option String :=
  extCandidates.find? (fun ext => fetch (basePattern ++ toString num ++ "." ++ ext))

/-- The probe loop of `AsyncDownloader.find_all_images`
(source: `async_downloader.py` lines 92-134): per index try the
extensions, an index with no success is a miss; five consecutive misses
end the run, and after each index step the hard safety bound
`image_num > start_number + 1000` is checked.  Returns the downloaded
file paths in fetch order, the filesystem and the final `image_num`.
The recursion is structural on `fuel`, the distance left to the safety
bound (`startNumber + 1000 - imageNum`); when the bound check fails the
fuel is positive, so the fuel-exhausted fallback — which returns the
same value as the bound break — is never reached from the entry call of
`find_all_images`. -/
def findImagesLoop (fetch : String → Bool) (basePattern : String) (chapterDir : DiskPath)
    (startNumber : Nat) : Nat → Nat → Nat → FS → List DiskPath → List DiskPath × FS × Nat
  | fuel, imageNum, consec, fs, acc =>
    if consec < 5 then
      match firstSuccess fetch basePattern imageNum with
      | some ext =>
        let fp := chapterDir ++ ["page_" ++ padNum3 imageNum ++ "." ++ ext]
        let fs' := addFile fs fp
        let acc' := acc ++ [fp]
        if imageNum + 1 > startNumber + 1000 then (acc', fs', imageNum + 1)
        else
          match fuel with
          | 0 => (acc', fs', imageNum + 1)
          | fuel' + 1 =>
            findImagesLoop fetch basePattern chapterDir startNumber fuel' (imageNum + 1) 0 fs' acc'
      | none =>
        if imageNum + 1 > startNumber + 1000 then (acc, fs, imageNum + 1)
        else
          match fuel with
          | 0 => (acc, fs, imageNum + 1)
          | fuel' + 1 =>
            findImagesLoop fetch basePattern chapterDir startNumber fuel' (imageNum + 1) (consec + 1) fs acc
    else (acc, fs, imageNum)

/-- Result of one probe run. -/
structure RunOutcome where
  files : List DiskPath
  fs : FS
  markerTouched : Bool
  finalIndex : Nat
deriving DecidableEq

/-- The chapter directory `downloads/<manga_name>/chapter_<num>` built by
`find_all_images` (source: `async_downloader.py` lines 72-74): spaces
and hyphens of the series name become underscores. -/
def chapterDirOf (outputDir : DiskPath) (series chapter : String) : DiskPath :=
  outputDir ++ [pyReplace (pyReplace series " " "_") "-" "_", "chapter_" ++ chapter]

/-- `AsyncDownloader.find_all_images` (source: `async_downloader.py`
lines 60-157): build the chapter directory from the series and chapter
names, create it, run the probe loop, and touch the `completed` marker
iff at least one page was downloaded.  The directory is never removed. -/
def find_all_images (fetch : String → Bool) (outputDir : DiskPath)
    (basePattern : String) (startNumber : Nat) (series chapter : String) (fs : FS) :
    RunOutcome :=
  let chapterDir := chapterDirOf outputDir series chapter
  let fs1 := mkdirAll fs chapterDir
  let r := findImagesLoop fetch basePattern chapterDir startNumber 1000 startNumber 0 fs1 []
  if r.1.isEmpty then ⟨r.1, r.2.1, false, r.2.2⟩
  else ⟨r.1, addFile r.2.1 (chapterDir ++ ["completed"]), true, r.2.2⟩

/-- The `exists`/`complete`/`page_count` record of
`AsyncDownloader.get_chapter_status`. -/
structure ChapterStatusR where
  chExists : Bool
  complete : Bool
  page_count : Nat
deriving DecidableEq

/-- `AsyncDownloader.get_chapter_status` (source: `async_downloader.py`
lines 382-402): directory existence, `completed`-marker existence, and
the count of files with a recognized image extension. -/
def get_chapter_status (fs : FS) (outputDir : DiskPath) (seriesName chapter : String) :
    ChapterStatusR :=
  let chapterDir := outputDir ++ [seriesName, "chapter_" ++ chapter]
  if chapterDir ∈ fs.dirs then
    ⟨true, decide ((chapterDir ++ ["completed"]) ∈ fs.files), countImages fs chapterDir⟩
  else ⟨false, false, 0⟩

/-! ## PatternFinder: regex scans as character-list parsers

The four `re.findall` patterns of `pattern_finder.py` contain no
backtracking ambiguity (each character class excludes its follower), so
each is embedded as a deterministic parser over `List Char`, and
`findall`'s left-to-right non-overlapping scan as `findAllTM`. -/

/-- Greedily take a nonempty run of characters satisfying `p`
(a regex `[...]+` whose class excludes the following delimiter). -/
def takeWhile1 (p : Char → Bool) (cs : List Char) : Option (String × List Char) :=
  let run := cs.takeWhile p
  if run.isEmpty then none else some (⟨run⟩, cs.dropWhile p)

/-- A nonempty digit run, regex `\d+` (ASCII digits). -/
def parseDigits (cs : List Char) : Option (String × List Char) :=
  takeWhile1 Char.isDigit cs

/-- A nonempty run of non-`/` characters, regex `[^/]+`. -/
def parseSeg (cs : List Char) : Option (String × List Char) :=
  takeWhile1 (fun c => !(c = '/')) cs

/-- Python's `\s` class. -/
def isPySpace (c : Char) : Bool :=
  c = ' ' || c = '\t' || c = '\n' || c = '\x0d' || c = '\x0b' || c = '\x0c'

/-- A nonempty run of the looser class, regex `[^/\s"\x27]+`. -/
def parseSegLoose (cs : List Char) : Option (String × List Char) :=
  takeWhile1 (fun c => !(c = '/' || isPySpace c || c = '"' || c = '\x27')) cs

/-- Ordered alternation of literal strings, regex `(?:jpg|png|jpeg|webp)`:
the first alternative that is a literal prefix wins. -/
def parseAlt : List String → List Char → Option (String × List Char)
  | [], _ => none
  | a :: rest, cs =>
    match parseLit a.data cs with
    | some cs' => some (a, cs')
    | none => parseAlt rest cs

/-- The image-extension alternation shared by the two direct URL patterns. -/
def extAlts : List String := ["jpg", "png", "jpeg", "webp"]

/-- One match of the CDN patterns: host piece `cdnN`, series path segment,
chapter path segment, and the digit group (empty for the alt pattern). -/
structure CdnMatch where
  host : String
  seriesPath : String
  chapterPath : String
  num : String
deriving DecidableEq

/-- One match of the manga.pics patterns. -/
structure MangaMatch where
  seriesPath : String
  chapterPath : String
  num : String
deriving DecidableEq

/-- Regex `https://(cdn\d+)\.ravenscans\.org/([^/]+)/([^/]+)/(\d+)\.(?:jpg|png|jpeg|webp)`
(source: `pattern_finder.py` line 40), matched at the head of `cs`. -/
def tryMatchCdnDirect (cs : List Char) : Option (CdnMatch × List Char) := do
  let r1 ← parseLit "https://cdn".data cs
  let (d, r2) ← parseDigits r1
  let r3 ← parseLit ".ravenscans.org/".data r2
  let (s1, r4) ← parseSeg r3
  let r5 ← parseLit "/".data r4
  let (s2, r6) ← parseSeg r5
  let r7 ← parseLit "/".data r6
  let (n, r8) ← parseDigits r7
  let r9 ← parseLit ".".data r8
  let (_, r10) ← parseAlt extAlts r9
  return (⟨"cdn" ++ d, s1, s2, n⟩, r10)

/-- Regex `https://manga\.pics/([^/]+)/([^/]+)/(\d+)\.(?:jpg|png|jpeg|webp)`
(source: `pattern_finder.py` line 58), matched at the head of `cs`. -/
def tryMatchMangaDirect (cs : List Char) : Option (MangaMatch × List Char) := do
  let r1 ← parseLit "https://manga.pics/".data cs
  let (s1, r2) ← parseSeg r1
  let r3 ← parseLit "/".data r2
  let (s2, r4) ← parseSeg r3
  let r5 ← parseLit "/".data r4
  let (n, r6) ← parseDigits r5
  let r7 ← parseLit ".".data r6
  let (_, r8) ← parseAlt extAlts r7
  return (⟨s1, s2, n⟩, r8)

/-- Regex `(cdn\d+)\.ravenscans\.org/([^/\s"\x27]+)/([^/\s"\x27]+)`
(source: `pattern_finder.py` line 78), matched at the head of `cs`. -/
def tryMatchCdnAlt (cs : List Char) : Option (CdnMatch × List Char) := do
  let r1 ← parseLit "cdn".data cs
  let (d, r2) ← parseDigits r1
  let r3 ← parseLit ".ravenscans.org/".data r2
  let (s1, r4) ← parseSegLoose r3
  let r5 ← parseLit "/".data r4
  let (s2, r6) ← parseSegLoose r5
  return (⟨"cdn" ++ d, s1, s2, ""⟩, r6)

/-- Regex `manga\.pics/([^/\s"\x27]+)/([^/\s"\x27]+)`
(source: `pattern_finder.py` line 93), matched at the head of `cs`. -/
def tryMatchMangaAlt (cs : List Char) : Option (MangaMatch × List Char) := do
  let r1 ← parseLit "manga.pics/".data cs
  let (s1, r2) ← parseSegLoose r1
  let r3 ← parseLit "/".data r2
  let (s2, r4) ← parseSegLoose r3
  return (⟨s1, s2, ""⟩, r4)

theorem parseLit_length : ∀ (l cs r : List Char), parseLit l cs = some r →
    r.length + l.length = cs.length := by
  intro l
  induction l with
  | nil => intro cs r h; simp [parseLit] at h; simp [h]
  | cons a as ih =>
    intro cs r h
    match cs with
    | [] => simp [parseLit] at h
    | c :: cs' =>
      simp only [parseLit] at h
      split at h
      · have := ih cs' r h
        simp [List.length_cons]
        omega
      · exact absurd h (by simp)

theorem takeWhile1_length {p : Char → Bool} {cs : List Char} {s : String} {r : List Char}
    (h : takeWhile1 p cs = some (s, r)) : r.length < cs.length := by
  simp only [takeWhile1] at h
  split at h
  · exact absurd h (by simp)
  · rename_i hne
    have hdw : r = cs.dropWhile p := by
      have := congrArg (fun o => Option.map Prod.snd o) h
      simpa using this.symm
    subst hdw
    rcases cs with _ | ⟨c, cs'⟩
    · simp [List.takeWhile] at hne
    · by_cases hc : p c
      · simp only [List.dropWhile, hc] at *
        have := (List.dropWhile_sublist p (l := cs')).length_le
        simp only [List.length_cons]
        omega
      · simp [List.takeWhile, hc] at hne

theorem takeWhile1_length_le {p : Char → Bool} {cs : List Char} {s : String} {r : List Char}
    (h : takeWhile1 p cs = some (s, r)) : r.length ≤ cs.length :=
  Nat.le_of_lt (takeWhile1_length h)

theorem parseAlt_length : ∀ (alts : List String) (cs : List Char) (s : String) (r : List Char),
    parseAlt alts cs = some (s, r) → r.length ≤ cs.length := by
  intro alts
  induction alts with
  | nil => intro cs s r h; simp [parseAlt] at h
  | cons a as ih =>
    intro cs s r h
    simp only [parseAlt] at h
    split at h
    · rename_i cs' heq
      have hlen := parseLit_length a.data cs cs' heq
      simp only [Option.some.injEq, Prod.mk.injEq] at h
      obtain ⟨-, hr⟩ := h
      subst hr
      omega
    · exact ih cs s r h

theorem tryMatchCdnDirect_length {cs : List Char} {m : CdnMatch} {rest : List Char}
    (h : tryMatchCdnDirect cs = some (m, rest)) : rest.length < cs.length := by
  simp only [tryMatchCdnDirect, bind, Option.bind_eq_some, pure, Option.some.injEq,
    Prod.mk.injEq] at h
  obtain ⟨r1, h1, p2, h2, r3, h3, p4, h4, r5, h5, p6, h6, r7, h7,
    p8, h8, r9, h9, p10, h10, -, hrest⟩ := h
  subst hrest
  have l1 := parseLit_length _ _ _ h1
  have l2 := takeWhile1_length h2
  have l3 := parseLit_length _ _ _ h3
  have l4 := takeWhile1_length h4
  have l5 := parseLit_length _ _ _ h5
  have l6 := takeWhile1_length h6
  have l7 := parseLit_length _ _ _ h7
  have l8 := takeWhile1_length h8
  have l9 := parseLit_length _ _ _ h9
  have l10 : p10.2.length ≤ r9.length := parseAlt_length _ _ _ _ h10
  have e1 : ("https://cdn".data).length = 11 := rfl
  have e3 : (".ravenscans.org/".data).length = 16 := rfl
  have e5 : ("/".data).length = 1 := rfl
  have e9 : (".".data).length = 1 := rfl
  omega

theorem tryMatchMangaDirect_length {cs : List Char} {m : MangaMatch} {rest : List Char}
    (h : tryMatchMangaDirect cs = some (m, rest)) : rest.length < cs.length := by
  simp only [tryMatchMangaDirect, bind, Option.bind_eq_some, pure, Option.some.injEq,
    Prod.mk.injEq] at h
  obtain ⟨r1, h1, p2, h2, r3, h3, p4, h4, r5, h5, p6, h6, r7, h7,
    p8, h8, -, hrest⟩ := h
  subst hrest
  have l1 := parseLit_length _ _ _ h1
  have l2 := takeWhile1_length h2
  have l3 := parseLit_length _ _ _ h3
  have l4 := takeWhile1_length h4
  have l5 := parseLit_length _ _ _ h5
  have l6 := takeWhile1_length h6
  have l7 := parseLit_length _ _ _ h7
  have l8 : p8.2.length ≤ r7.length := parseAlt_length _ _ _ _ h8
  have e1 : ("https://manga.pics/".data).length = 19 := rfl
  have e3 : ("/".data).length = 1 := rfl
  have e7 : (".".data).length = 1 := rfl
  omega

theorem tryMatchCdnAlt_length {cs : List Char} {m : CdnMatch} {rest : List Char}
    (h : tryMatchCdnAlt cs = some (m, rest)) : rest.length < cs.length := by
  simp only [tryMatchCdnAlt, bind, Option.bind_eq_some, pure, Option.some.injEq,
    Prod.mk.injEq] at h
  obtain ⟨r1, h1, p2, h2, r3, h3, p4, h4, r5, h5, p6, h6, -, hrest⟩ := h
  subst hrest
  have l1 := parseLit_length _ _ _ h1
  have l2 := takeWhile1_length h2
  have l3 := parseLit_length _ _ _ h3
  have l4 := takeWhile1_length h4
  have l5 := parseLit_length _ _ _ h5
  have l6 : p6.2.length < r5.length := takeWhile1_length h6
  have e1 : ("cdn".data).length = 3 := rfl
  have e3 : (".ravenscans.org/".data).length = 16 := rfl
  have e5 : ("/".data).length = 1 := rfl
  omega

theorem tryMatchMangaAlt_length {cs : List Char} {m : MangaMatch} {rest : List Char}
    (h : tryMatchMangaAlt cs = some (m, rest)) : rest.length < cs.length := by
  simp only [tryMatchMangaAlt, bind, Option.bind_eq_some, pure, Option.some.injEq,
    Prod.mk.injEq] at h
  obtain ⟨r1, h1, p2, h2, r3, h3, p4, h4, -, hrest⟩ := h
  subst hrest
  have l1 := parseLit_length _ _ _ h1
  have l2 := takeWhile1_length h2
  have l3 := parseLit_length _ _ _ h3
  have l4 : p4.2.length < r3.length := takeWhile1_length h4
  have e1 : ("manga.pics/".data).length = 11 := rfl
  have e3 : ("/".data).length = 1 := rfl
  omega

/-- `re.findall` as a left-to-right, non-overlapping scan: at each
position try the pattern; on a hit record the groups and resume after
the consumed text, otherwise advance one character.  `fuel` bounds the
number of scan steps structurally; each successful match of the four
patterns above consumes at least one character (the `_length` theorems),
so with `fuel = cs.length` — as `findAllOn` passes — the fuel never runs
out. -/
def findAllTM {A : Type} (tm : List Char → Option (A × List Char)) :
    Nat → List Char → List A
  | 0, _ => []
  | _ + 1, [] => []
  | fuel + 1, c :: cs =>
    match tm (c :: cs) with
    | some (m, rest) => m :: findAllTM tm fuel rest
    | none => findAllTM tm fuel cs

/-- Run the non-overlapping scan over a whole string. -/
def findAllOn {A : Type} (tm : List Char → Option (A × List Char)) (s : String) : List A :=
  findAllTM tm s.data.length s.data

/-- Python `int(...)` on a digit string. -/
def digitsToNat (s : String) : Nat :=
  s.data.foldl (fun a c => 10 * a + (c.toNat - '0'.toNat)) 0

/-- Python `min(...)` over a nonempty list given as head and tail. -/
def natMin (x : Nat) (xs : List Nat) : Nat :=
  xs.foldl Nat.min x

/-- `PatternFinder._detect_start_number` (source: `pattern_finder.py`
lines 114-145): probe indices 0,1,2 against `.jpg`, then against `.png`;
a request exception or non-200 status is a miss (`probe` false); when
nothing succeeds the code logs a warning and returns the default 0 —
it never returns `None`. -/
def detect_start_number (probe : String → Bool) (basePattern : String) : Option Nat :=
  match [0, 1, 2].find? (fun n => probe (basePattern ++ toString n ++ ".jpg")) with
  | some n => some n
  | none =>
    match [0, 1, 2].find? (fun n => probe (basePattern ++ toString n ++ ".png")) with
    | some n => some n
    | none => some 0

/-- The non-overlapping scan for the direct CDN pattern. -/
def findCdnDirect (html : String) : List CdnMatch :=
  findAllOn tryMatchCdnDirect html

/-- The non-overlapping scan for the direct manga.pics pattern. -/
def findMangaDirect (html : String) : List MangaMatch :=
  findAllOn tryMatchMangaDirect html

/-- The non-overlapping scan for the looser CDN reference pattern. -/
def findCdnAlt (html : String) : List CdnMatch :=
  findAllOn tryMatchCdnAlt html

/-- The non-overlapping scan for the looser manga.pics reference pattern. -/
def findMangaAlt (html : String) : List MangaMatch :=
  findAllOn tryMatchMangaAlt html

/-- Base pattern built from a CDN match (source: `pattern_finder.py`
lines 45 and 83). -/
def cdnBase (m : CdnMatch) : String :=
  "https://" ++ m.host ++ ".ravenscans.org/" ++ m.seriesPath ++ "/" ++ m.chapterPath ++ "/"

/-- Base pattern built from a manga.pics match (source: `pattern_finder.py`
lines 63 and 98). -/
def mangaBase (m : MangaMatch) : String :=
  "https://manga.pics/" ++ m.seriesPath ++ "/" ++ m.chapterPath ++ "/"

/-- The last fallback stage of `extract_from_ravenscans` (source:
`pattern_finder.py` lines 93-108): looser manga.pics reference scan with
a probed start number; failing that, the function logs and returns
`None`. -/
def extractMangaAltStage (probe : String → Bool) (html : String) : Option (String × Nat) :=
  match findMangaAlt html with
  | m :: _ =>
    (match detect_start_number probe (mangaBase m) with
     | some n => some (mangaBase m, n)
     | none => none)
  | [] => none

/-- `PatternFinder.extract_from_ravenscans` on a fetched document
(source: `pattern_finder.py` lines 26-112).  The HTTP GET of the page is
abstracted away: `html` is the fetched text, `probe` the HEAD-equivalent
existence oracle used by `_detect_start_number`.  Direct CDN matches win,
then direct manga.pics matches, then the looser CDN and manga.pics
reference scans with probed start numbers; otherwise `none`. -/
def extract_from_ravenscans (probe : String → Bool) (html : String) :
    Option (String × Nat) :=
  match findCdnDirect html with
  | m :: rest =>
    some (cdnBase m, natMin (digitsToNat m.num) (rest.map (fun x => digitsToNat x.num)))
  | [] =>
  match findMangaDirect html with
  | m :: rest =>
    some (mangaBase m, natMin (digitsToNat m.num) (rest.map (fun x => digitsToNat x.num)))
  | [] =>
  match findCdnAlt html with
  | m :: _ =>
    (match detect_start_number probe (cdnBase m) with
     | some n => some (cdnBase m, n)
     | none => extractMangaAltStage probe html)
  | [] => extractMangaAltStage probe html

/-! ## ComicWebServer: listing, page enumeration, recent chapters -/

/-- CPython's string comparison: lexicographic by code point, a strict
proper prefix comparing smaller. -/
def charListLe : List Char → List Char → Bool
  | [], _ => true
  | _ :: _, [] => false
  | a :: as, b :: bs =>
    if a.toNat < b.toNat then true
    else if b.toNat < a.toNat then false
    else charListLe as bs

/-- Python `a <= b` on strings. -/
def pyStrLe (a b : String) : Bool := charListLe a.data b.data

/-- Stable insertion keeping `x` after every already-placed element `y`
with `le y x` (the comparator says "`y` may stay in front of `x`"). -/
def pyInsertLe {α : Type} (le : α → α → Bool) (x : α) : List α → List α
  | [] => [x]
  | y :: ys => if le y x then y :: pyInsertLe le x ys else x :: y :: ys

/-- Python's stable `list.sort` with a total comparator: elements are
inserted left to right, ties keeping their original order. -/
def pySortBy {α : Type} (le : α → α → Bool) (l : List α) : List α :=
  l.foldl (fun acc x => pyInsertLe le x acc) []



/-- `ComicWebServer.get_image_files` (source: `web_reader.py` lines
454-465): collect file names with a recognized image extension, then
plain `image_files.sort()` — Python's lexicographic string sort. -/
def get_image_files (fs : FS) (chapterDir : DiskPath) : List String :=
  pySortBy pyStrLe ((namesIn fs.files chapterDir).filter isImageFile)

/-- One chapter row of `scan_series` (the `last_modified` timestamp,
taken from the directory mtime, is outside the filesystem model). -/
structure ChapterInfo where
  name : String
  is_complete : Bool
  page_count : Nat
deriving DecidableEq

/-- The per-series chapter listing of `ComicWebServer.scan_series`
(source: `web_reader.py` lines 404-452): one `ChapterInfo` per chapter
directory, sorted by `chapters.sort(key=lambda x: x.name)` — Python's
lexicographic string sort on the name. -/
def scan_series_chapters (fs : FS) (downloadsDir : DiskPath) (seriesName : String) :
    List ChapterInfo :=
  let chapterDirs := namesIn fs.dirs (downloadsDir ++ [seriesName])
  let chapters := chapterDirs.map (fun c =>
    let dir := downloadsDir ++ [seriesName, c]
    (⟨c, decide ((dir ++ ["completed"]) ∈ fs.files), (get_image_files fs dir).length⟩ :
      ChapterInfo))
  pySortBy (fun a b => pyStrLe a.name b.name) chapters

/-- One entry of `recent_chapters.json`. -/
structure RecentChapter where
  series : String
  chapter : String
  last_read : String
  page_position : Nat
deriving DecidableEq

/-- `chapters.sort(key=lambda r: (r.last_read or ""), reverse=True)`:
stable sort, newest (largest timestamp string) first. -/
def sortByLastReadDesc (l : List RecentChapter) : List RecentChapter :=
  pySortBy (fun a b => pyStrLe b.last_read a.last_read) l

/-- The keep-first-per-series deduplication loop of
`load_recent_chapters` (source: `web_reader.py` lines 503-508). -/
def dedupBySeries : List RecentChapter → List String → List RecentChapter
  | [], _ => []
  | c :: cs, seen =>
    if c.series ∈ seen then dedupBySeries cs seen
    else c :: dedupBySeries cs (c.series :: seen)

/-- `ComicWebServer.load_recent_chapters` (source: `web_reader.py` lines
484-512) after JSON parsing: sort by `last_read` newest first,
deduplicate keeping the first (newest) entry per series, return the
first 10. -/
def load_recent_chapters (items : List RecentChapter) : List RecentChapter :=
  (dedupBySeries (sortByLastReadDesc items) []).take 10

/-- `ComicWebServer.save_recent_chapter` (source: `web_reader.py` lines
514-534): reload the recents, drop previous entries of the saved series,
put the new entry in front, re-sort newest first and cap at 10; the
result is what is written back to `recent_chapters.json`. -/
def save_recent_chapter (items : List RecentChapter) (recent : RecentChapter) :
    List RecentChapter :=
  let recents := load_recent_chapters items
  let filtered := recents.filter (fun r => !(r.series == recent.series))
  (sortByLastReadDesc (recent :: filtered)).take 10

/-! ## ChapterListCache -/

/-- One scraped chapter of a cached series list. -/
structure ChapterEntry where
  number : String
  url : String
deriving DecidableEq

/-- The persisted cache, keyed by normalized series key; only the
`chapters` field of each entry is modelled (`series_url` and
`last_updated` are never read by the claims' operations). -/
abbrev CacheDict := List (String × List ChapterEntry)

/-- `ChapterListCache._normalize_series_key` (source: `pattern_finder.py`
lines 353-355). -/
def normalize_series_key (s : String) : String :=
  pyReplace (pyReplace (pyToLower s) " " "_") "-" "_"

/-- First-match lookup in the cache dictionary. -/
def lookupDict (d : CacheDict) (k : String) : Option (List ChapterEntry) :=
  (d.find? (fun p => p.1 == k)).map (fun p => p.2)

/-- `ChapterListCache.get_chapters` (source: `pattern_finder.py` lines
357-363): `None` when the series was never cached, else the cached
chapter list. -/
def get_chapters (cache : CacheDict) (seriesName : String) : Option (List ChapterEntry) :=
  lookupDict cache (normalize_series_key seriesName)

/-- Python's `list.index` as an option (`ValueError` becomes `none`):
the index of the first occurrence. -/
def pyIndex (l : List String) (x : String) : Option Nat :=
  match l with
  | [] => none
  | a :: rest => if a == x then some 0 else (pyIndex rest x).map (fun i => i + 1)

/-- `ChapterListCache.get_next_chapters` (source: `pattern_finder.py`
lines 395-415): empty when nothing is cached (`if not chapters`), empty
when `current_chapter` raises `ValueError` in `list.index`, else the
slice `chapter_numbers[idx+1 : idx+1+count]`. -/
def get_next_chapters (cache : CacheDict) (seriesName currentChapter : String)
    (count : Nat) : List String :=
  match get_chapters cache seriesName with
  | none => []
  | some chapters =>
    if chapters.isEmpty then []
    else
      let chapterNumbers := chapters.map (fun ch => ch.number)
      match pyIndex chapterNumbers currentChapter with
      | none => []
      | some i => (chapterNumbers.drop (i + 1)).take count

/-- `ChapterListCache.needs_refresh` (source: `pattern_finder.py` lines
428-443): true when nothing is cached, when the current chapter is
absent from the cached list (`ValueError`), or when fewer than
`lookahead` chapters remain after it. -/
def needs_refresh (cache : CacheDict) (seriesName currentChapter : String)
    (lookahead : Nat) : Bool :=
  match get_chapters cache seriesName with
  | none => true
  | some chapters =>
    if chapters.isEmpty then true
    else
      let chapterNumbers := chapters.map (fun ch => ch.number)
      match pyIndex chapterNumbers currentChapter with
      | none => true
      | some i => decide (chapterNumbers.length - i - 1 < lookahead)

/-! ## PrefetchScheduler (`trigger_background_download`) -/

/-- The in-memory download status values (source: `web_reader.py`
line 70). -/
inductive DLStatus
  | pending
  | downloading
  | complete
  | error
  | not_available
deriving DecidableEq

/-- One `DownloadStatus` record (source: `web_reader.py` lines 68-72). -/
structure DownloadStatusRec where
  chapter_num : Nat
  status : DLStatus
  progress : Nat
  message : String
deriving DecidableEq

/-- The `download_status` dict, keyed by `f"{series}_{chapter}"`. -/
abbrev StatusDict := List (String × DownloadStatusRec)

/-- Python `key in dict`. -/
def dictContains (d : StatusDict) (k : String) : Bool :=
  d.any (fun p => p.1 == k)

/-- Python `dict[key] = value`. -/
def dictSet (d : StatusDict) (k : String) (v : DownloadStatusRec) : StatusDict :=
  if dictContains d k then d.map (fun p => if p.1 == k then (k, v) else p)
  else d ++ [(k, v)]

/-- The dict key `f"{series_name}_{chapter_num}"`. -/
def statusKey (series : String) (chapter : Nat) : String :=
  series ++ "_" ++ toString chapter

/-- The status-marking loop of `trigger_background_download` (source:
`web_reader.py` lines 547-561): for chapters `starting+1 .. starting+3`,
a key already present in the dict — whatever its status — is skipped
(`continue`), otherwise it is set to `downloading`.  This `continue`
only skips the status write; it does not influence the download call
made afterwards. -/
def markDownloading (series : String) (starting : Nat) (st : StatusDict) : StatusDict :=
  [1, 2, 3].foldl (fun acc i =>
    let key := statusKey series (starting + i)
    if dictContains acc key then acc
    else dictSet acc key ⟨starting + i, .downloading, 0, "Starting download..."⟩) st

/-- Modelled from the spec: `auto_download_next_chapters`, the
`AsyncDownloader` method awaited by `trigger_background_download`
(`web_reader.py` line 564), is not among the source files; per the spec
(sections 4.5 and 6) and its in-source sibling
`AsyncDownloader.download_chapters` it downloads the next `aheadCount`
chapters after `starting`, skipping a chapter only when its on-disk
`completed` marker exists (reported successful), and otherwise runs the
probe downloader, reporting success iff the run yielded pages.  Being a
method of the downloader it has no access to the server's in-memory
`download_status` dict. -/
def auto_download_next_chapters (hasMarker runYieldsPages : Nat → Bool)
    (starting aheadCount : Nat) : List (Nat × Bool) :=
  ((List.range aheadCount).map (fun i => starting + i + 1)).map
    (fun c => if hasMarker c then (c, true) else (c, runYieldsPages c))

/-- The chapters for which `auto_download_next_chapters` actually queues
probe-download work (those without an on-disk completion marker). -/
def queuedChapters (hasMarker : Nat → Bool) (starting aheadCount : Nat) : List Nat :=
  ((List.range aheadCount).map (fun i => starting + i + 1)).filter (fun c => !hasMarker c)

/-- What one invocation of the prefetch trigger produces. -/
structure TriggerOutcome where
  marked : StatusDict
  queued : List Nat
  final : StatusDict
deriving DecidableEq

/-- `ComicWebServer.trigger_background_download` (source: `web_reader.py`
lines 536-599): mark statuses (skipping existing keys), invoke the
downloader for chapters `starting+1 .. starting+3` unconditionally, then
record `complete` / `not_available` per result.  `marked` is the status
dict after the marking loop (the in-flight state a concurrent second
trigger observes), `queued` the chapters given download work. -/
def trigger_background_download (series : String) (starting : Nat)
    (hasMarker runYieldsPages : Nat → Bool) (st : StatusDict) : TriggerOutcome :=
  let marked := markDownloading series starting st
  let results := auto_download_next_chapters hasMarker runYieldsPages starting 3
  let final := results.foldl (fun acc p =>
    if p.2 then dictSet acc (statusKey series p.1) ⟨p.1, .complete, 100, "Download complete"⟩
    else dictSet acc (statusKey series p.1) ⟨p.1, .not_available, 0, "Chapter not available"⟩)
    marked
  ⟨marked, queuedChapters hasMarker starting 3, final⟩

/-! ## Support definitions: scenario inputs and invariants -/

/-- Fetch oracle of the gap scenario: pages exist exactly at indices
0-4 and 6 of the scenario chapter, as `.jpg`; everything else misses. -/
def scenarioOracle (url : String) : Bool :=
  [0, 1, 2, 3, 4, 6].any
    (fun n => url == "https://cdn2.ravenscans.org/series-x/chapter-7/" ++ toString n ++ ".jpg")

/-- A fetched document containing direct CDN page URLs for indices 0-4
and 6 (gap at 5). -/
def scenarioHtml : String :=
  "<img src=https://cdn2.ravenscans.org/series-x/chapter-7/0.jpg> " ++
  "<img src=https://cdn2.ravenscans.org/series-x/chapter-7/1.jpg> " ++
  "<img src=https://cdn2.ravenscans.org/series-x/chapter-7/2.jpg> " ++
  "<img src=https://cdn2.ravenscans.org/series-x/chapter-7/3.jpg> " ++
  "<img src=https://cdn2.ravenscans.org/series-x/chapter-7/4.jpg> " ++
  "<img src=https://cdn2.ravenscans.org/series-x/chapter-7/6.jpg>"

/-- The probe run of the gap scenario, starting from the resolved
template at index 0 on an empty download store. -/
def scenarioRun : RunOutcome :=
  find_all_images scenarioOracle ["downloads"]
    "https://cdn2.ravenscans.org/series-x/chapter-7/" 0 "Series X" "7" ⟨[], []⟩

/-- A document holding only a bare CDN host/slug reference and no direct
image URL, driving the resolver into its fallback stages. -/
def looseHtml : String := "src: cdn2.ravenscans.org/series-x/chapter-7 end"

/-- A store with chapter directories chapter_2, chapter_1.1, chapter_10
and chapter_1 of one series — the natural-ordering example. -/
def sortFS : FS :=
  ⟨[["downloads"], ["downloads", "s"], ["downloads", "s", "chapter_2"],
    ["downloads", "s", "chapter_1.1"], ["downloads", "s", "chapter_10"],
    ["downloads", "s", "chapter_1"]], []⟩

/-- The cached chapter list of the `get_next_chapters` scenario. -/
def c8Cache : CacheDict :=
  [("series", [⟨"1", "u1"⟩, ⟨"1.1", "u2"⟩, ⟨"1.2", "u3"⟩, ⟨"2", "u4"⟩])]

/-- Well-formedness of the filesystem model: every file lies in an
existing directory — true of every real on-disk state. -/
def fsWF (fs : FS) : Prop := ∀ f ∈ fs.files, f.dropLast ∈ fs.dirs

/-- The completion invariant of one chapter in the store: a chapter
reported complete has at least one page. -/
def statusInv (fs : FS) (outputDir : DiskPath) (s c : String) : Prop :=
  (get_chapter_status fs outputDir s c).complete = true →
    1 ≤ (get_chapter_status fs outputDir s c).page_count

/-- Python `dict.get` on the status dict. -/
def dictGet (d : StatusDict) (k : String) : Option DownloadStatusRec :=
  (d.find? (fun p => p.1 == k)).map (fun p => p.2)

/-! ## Order lemmas for the Python string comparison and stable sort -/

theorem charListLe_total : ∀ a b : List Char, charListLe a b = true ∨ charListLe b a = true
  | [], b => by left; cases b <;> rfl
  | _ :: _, [] => by right; rfl
  | a :: as, b :: bs => by
    simp only [charListLe]
    by_cases hab : a.toNat < b.toNat
    · left; simp [hab]
    · by_cases hba : b.toNat < a.toNat
      · right; simp [hba]
      · simp only [if_neg hab, if_neg hba]
        exact charListLe_total as bs

theorem charListLe_trans : ∀ a b c : List Char, charListLe a b = true → charListLe b c = true →
    charListLe a c = true
  | [], _, c, _, _ => by cases c <;> rfl
  | _ :: _, [], _, h1, _ => by simp [charListLe] at h1
  | _ :: _, _ :: _, [], _, h2 => by simp [charListLe] at h2
  | a :: as, b :: bs, c :: cs, h1, h2 => by
    simp only [charListLe] at h1 h2 ⊢
    by_cases hab : a.toNat < b.toNat
    · by_cases hbc : b.toNat < c.toNat
      · simp [lt_trans hab hbc]
      · by_cases hcb : c.toNat < b.toNat
        · simp [hbc, hcb] at h2
        · have hac : a.toNat < c.toNat := by omega
          simp [hac]
    · by_cases hba : b.toNat < a.toNat
      · simp [hab, hba] at h1
      · simp only [if_neg hab, if_neg hba] at h1
        by_cases hbc : b.toNat < c.toNat
        · have hac : a.toNat < c.toNat := by omega
          simp [hac]
        · by_cases hcb : c.toNat < b.toNat
          · simp [hbc, hcb] at h2
          · simp only [if_neg hbc, if_neg hcb] at h2
            have hac : ¬a.toNat < c.toNat := by omega
            have hca : ¬c.toNat < a.toNat := by omega
            simp only [if_neg hac, if_neg hca]
            exact charListLe_trans as bs cs h1 h2

theorem pyStrLe_total (a b : String) : pyStrLe a b = true ∨ pyStrLe b a = true :=
  charListLe_total a.data b.data

theorem pyStrLe_trans {a b c : String} (h1 : pyStrLe a b = true) (h2 : pyStrLe b c = true) :
    pyStrLe a c = true :=
  charListLe_trans a.data b.data c.data h1 h2

theorem mem_pyInsertLe {α : Type} {le : α → α → Bool} {x z : α} :
    ∀ {l : List α}, z ∈ pyInsertLe le x l ↔ z = x ∨ z ∈ l
  | [] => by simp [pyInsertLe]
  | y :: ys => by
    simp only [pyInsertLe]
    split
    · simp only [List.mem_cons, mem_pyInsertLe (l := ys)]
      tauto
    · exact List.mem_cons

theorem pyInsertLe_perm {α : Type} (le : α → α → Bool) (x : α) :
    ∀ l : List α, (pyInsertLe le x l).Perm (x :: l)
  | [] => List.Perm.refl _
  | y :: ys => by
    simp only [pyInsertLe]
    split
    · exact ((pyInsertLe_perm le x ys).cons y).trans (List.Perm.swap x y ys)
    · exact List.Perm.refl _

theorem pySortBy_perm_aux {α : Type} (le : α → α → Bool) :
    ∀ (l acc : List α), (l.foldl (fun acc x => pyInsertLe le x acc) acc).Perm (l ++ acc)
  | [], acc => List.Perm.refl _
  | x :: l, acc => by
    simp only [List.foldl_cons, List.cons_append]
    refine (pySortBy_perm_aux le l (pyInsertLe le x acc)).trans ?_
    refine (List.Perm.append_left l (pyInsertLe_perm le x acc)).trans ?_
    exact List.perm_middle

theorem pySortBy_perm {α : Type} (le : α → α → Bool) (l : List α) :
    (pySortBy le l).Perm l := by
  simpa using pySortBy_perm_aux le l []

theorem pyInsertLe_pairwise {α : Type} {le : α → α → Bool}
    (htot : ∀ a b, le a b = true ∨ le b a = true)
    (htrans : ∀ a b c, le a b = true → le b c = true → le a c = true) (x : α) :
    ∀ {l : List α}, l.Pairwise (fun a b => le a b = true) →
      (pyInsertLe le x l).Pairwise (fun a b => le a b = true)
  | [], _ => by simp [pyInsertLe]
  | y :: ys, hl => by
    rcases List.pairwise_cons.mp hl with ⟨hy, hys⟩
    simp only [pyInsertLe]
    split
    · rename_i hyx
      refine List.pairwise_cons.mpr ⟨?_, pyInsertLe_pairwise htot htrans x hys⟩
      intro z hz
      rcases mem_pyInsertLe.mp hz with rfl | hz
      · exact hyx
      · exact hy z hz
    · rename_i hyx
      have hxy : le x y = true := (htot x y).resolve_right (by simpa using hyx)
      refine List.pairwise_cons.mpr ⟨?_, hl⟩
      intro z hz
      rcases List.mem_cons.mp hz with rfl | hz
      · exact hxy
      · exact htrans x y z hxy (hy z hz)

theorem pySortBy_pairwise_aux {α : Type} {le : α → α → Bool}
    (htot : ∀ a b, le a b = true ∨ le b a = true)
    (htrans : ∀ a b c, le a b = true → le b c = true → le a c = true) :
    ∀ (l acc : List α), acc.Pairwise (fun a b => le a b = true) →
      (l.foldl (fun acc x => pyInsertLe le x acc) acc).Pairwise (fun a b => le a b = true)
  | [], _, hacc => hacc
  | x :: l, acc, hacc =>
    pySortBy_pairwise_aux htot htrans l (pyInsertLe le x acc)
      (pyInsertLe_pairwise htot htrans x hacc)

theorem pySortBy_pairwise {α : Type} {le : α → α → Bool}
    (htot : ∀ a b, le a b = true ∨ le b a = true)
    (htrans : ∀ a b c, le a b = true → le b c = true → le a c = true) (l : List α) :
    (pySortBy le l).Pairwise (fun a b => le a b = true) :=
  pySortBy_pairwise_aux htot htrans l [] (List.Pairwise.nil)

/-! ## Filesystem and probe-loop lemmas -/

theorem addFile_dirs (fs : FS) (p : DiskPath) : (addFile fs p).dirs = fs.dirs := by
  unfold addFile; split <;> rfl

theorem addFile_files_append (fs : FS) (p : DiskPath) :
    ∃ t, (addFile fs p).files = fs.files ++ t ∧ ∀ q ∈ t, q = p := by
  unfold addFile
  split
  · exact ⟨[], by simp⟩
  · exact ⟨[p], rfl, by simp⟩

theorem mem_addFile_self (fs : FS) (p : DiskPath) : p ∈ (addFile fs p).files := by
  unfold addFile
  split
  · assumption
  · simp

theorem mkdirAll_self_mem (fs : FS) (d : DiskPath) : d ∈ (mkdirAll fs d).dirs := by
  unfold mkdirAll
  split
  · assumption
  · simp

theorem mkdirAll_files (fs : FS) (d : DiskPath) : (mkdirAll fs d).files = fs.files := by
  unfold mkdirAll; split <;> rfl

theorem mem_mkdirAll_dirs {fs : FS} {d x : DiskPath} :
    x ∈ (mkdirAll fs d).dirs ↔ x ∈ fs.dirs ∨ x = d := by
  unfold mkdirAll
  split
  · rename_i hd
    constructor
    · exact Or.inl
    · rintro (h | rfl)
      · exact h
      · exact hd
  · simp

theorem afterLastDot_eq_none {cs : List Char} (h : ∀ c ∈ cs, c ≠ '.') :
    afterLastDot cs = none := by
  induction cs with
  | nil => rfl
  | cons c rest ih =>
    have hc : c ≠ '.' := h c (by simp)
    have ht : ∀ x ∈ rest, x ≠ '.' := fun x hx => h x (by simp [hx])
    simp [afterLastDot, ih ht, hc]

theorem afterLastDot_append (l ext : List Char) (hext : ∀ c ∈ ext, c ≠ '.') :
    afterLastDot (l ++ '.' :: ext) = some ext := by
  induction l with
  | nil => simp [afterLastDot, afterLastDot_eq_none hext]
  | cons c l ih => simp [afterLastDot, ih]

theorem pathSuffix_dot_ext (s ext : String) (hext : ∀ c ∈ ext.data, c ≠ '.') :
    pathSuffix (s ++ "." ++ ext) = String.mk ('.' :: ext.data) := by
  unfold pathSuffix
  have hdata : (s ++ "." ++ ext).data = s.data ++ '.' :: ext.data := by
    simp [String.data_append]
  rw [hdata, afterLastDot_append _ _ hext]

theorem isImageFile_page (stem ext : String) (hmem : ext ∈ extCandidates) :
    isImageFile (stem ++ "." ++ ext) = true := by
  have : ext = "jpg" ∨ ext = "png" ∨ ext = "jpeg" ∨ ext = "webp" := by
    simpa [extCandidates] using hmem
  rcases this with rfl | rfl | rfl | rfl <;>
    · unfold isImageFile
      rw [pathSuffix_dot_ext _ _ (by decide)]
      decide

theorem getLast?_shape {l : DiskPath} {name : String} (h : l.getLast? = some name) :
    l = l.dropLast ++ [name] := by
  induction l using List.reverseRecOn with
  | nil => simp at h
  | append_singleton l a _ =>
    rw [List.getLast?_concat] at h
    obtain rfl : a = name := by simpa using h
    simp

theorem mem_namesIn {paths : List DiskPath} {dir : DiskPath} {name : String} :
    name ∈ namesIn paths dir ↔ (dir ++ [name]) ∈ paths := by
  unfold namesIn
  rw [List.mem_filterMap]
  constructor
  · rintro ⟨p, hp, hif⟩
    split at hif
    · rename_i hdrop
      have := getLast?_shape hif
      rw [← hdrop, ← this]
      exact hp
    · simp at hif
  · intro h
    refine ⟨dir ++ [name], h, ?_⟩
    rw [if_pos (by simp), List.getLast?_concat]

theorem namesIn_append (a b : List DiskPath) (dir : DiskPath) :
    namesIn (a ++ b) dir = namesIn a dir ++ namesIn b dir := by
  unfold namesIn
  exact List.filterMap_append a b _

theorem countImages_mono {fs : FS} {t : List DiskPath} {dir : DiskPath} :
    countImages fs dir ≤
      ((namesIn (fs.files ++ t) dir).filter isImageFile).length := by
  rw [namesIn_append, List.filter_append, List.length_append]
  exact Nat.le_add_right _ _

theorem mem_count_pos {files : List DiskPath} {dir : DiskPath} {name : String}
    (hmem : (dir ++ [name]) ∈ files) (himg : isImageFile name = true) :
    0 < ((namesIn files dir).filter isImageFile).length := by
  have h1 : name ∈ namesIn files dir := mem_namesIn.mpr hmem
  have h2 : name ∈ (namesIn files dir).filter isImageFile := List.mem_filter.mpr ⟨h1, himg⟩
  exact List.length_pos.mpr (List.ne_nil_of_mem h2)

theorem findImagesLoop_spec (fetch : String → Bool) (base : String) (dir : DiskPath)
    (start : Nat) :
    ∀ (fuel imageNum consec : Nat) (fs : FS) (acc : List DiskPath),
      (findImagesLoop fetch base dir start fuel imageNum consec fs acc).2.1.dirs = fs.dirs ∧
      (∃ t, (findImagesLoop fetch base dir start fuel imageNum consec fs acc).2.1.files =
          fs.files ++ t ∧
          ∀ p ∈ t, ∃ name, p = dir ++ [name] ∧ isImageFile name = true) ∧
      (∃ u, (findImagesLoop fetch base dir start fuel imageNum consec fs acc).1 = acc ++ u ∧
          ∀ p ∈ u,
            p ∈ (findImagesLoop fetch base dir start fuel imageNum consec fs acc).2.1.files ∧
            ∃ name, p = dir ++ [name] ∧ isImageFile name = true) ∧
      ((findImagesLoop fetch base dir start fuel imageNum consec fs acc).1 = acc →
        (findImagesLoop fetch base dir start fuel imageNum consec fs acc).2.1 = fs) := by
  intro fuel
  induction fuel with
  | zero =>
    intro imageNum consec fs acc
    simp only [findImagesLoop]
    split
    · rcases hfind : firstSuccess fetch base imageNum with - | ext <;> simp only [hfind]
      · split <;>
        · refine ⟨rfl, ⟨[], by simp⟩, ⟨[], by simp⟩, fun _ => rfl⟩
      · have hext : ext ∈ extCandidates := List.mem_of_find?_eq_some hfind
        have himg : isImageFile ("page_" ++ padNum3 imageNum ++ "." ++ ext) = true :=
          isImageFile_page _ _ hext
        split <;>
        · obtain ⟨t, ht, htp⟩ := addFile_files_append fs (dir ++ ["page_" ++ padNum3 imageNum ++ "." ++ ext])
          refine ⟨addFile_dirs _ _, ⟨t, ht, fun p hp => ⟨_, htp p hp, himg⟩⟩,
            ⟨[dir ++ ["page_" ++ padNum3 imageNum ++ "." ++ ext]], rfl, ?_⟩, ?_⟩
          · intro p hp
            simp only [List.mem_singleton] at hp
            subst hp
            exact ⟨mem_addFile_self _ _, _, rfl, himg⟩
          · intro h
            exact absurd (congrArg List.length h) (by simp)
    · exact ⟨rfl, ⟨[], by simp⟩, ⟨[], by simp⟩, fun _ => rfl⟩
  | succ fuel ih =>
    intro imageNum consec fs acc
    simp only [findImagesLoop]
    split
    · rcases hfind : firstSuccess fetch base imageNum with - | ext <;> simp only [hfind]
      · split
        · exact ⟨rfl, ⟨[], by simp⟩, ⟨[], by simp⟩, fun _ => rfl⟩
        · exact ih (imageNum + 1) (consec + 1) fs acc
      · have hext : ext ∈ extCandidates := List.mem_of_find?_eq_some hfind
        have himg : isImageFile ("page_" ++ padNum3 imageNum ++ "." ++ ext) = true :=
          isImageFile_page _ _ hext
        split
        · obtain ⟨t, ht, htp⟩ := addFile_files_append fs (dir ++ ["page_" ++ padNum3 imageNum ++ "." ++ ext])
          refine ⟨addFile_dirs _ _, ⟨t, ht, fun p hp => ⟨_, htp p hp, himg⟩⟩,
            ⟨[dir ++ ["page_" ++ padNum3 imageNum ++ "." ++ ext]], rfl, ?_⟩, ?_⟩
          · intro p hp
            simp only [List.mem_singleton] at hp
            subst hp
            exact ⟨mem_addFile_self _ _, _, rfl, himg⟩
          · intro h
            exact absurd (congrArg List.length h) (by simp)
        · obtain ⟨hdirs, ⟨t1, ht1, ht1p⟩, ⟨u1, hu1, hu1p⟩, -⟩ :=
            ih (imageNum + 1) 0
              (addFile fs (dir ++ ["page_" ++ padNum3 imageNum ++ "." ++ ext]))
              (acc ++ [dir ++ ["page_" ++ padNum3 imageNum ++ "." ++ ext]])
          obtain ⟨t0, ht0, ht0p⟩ := addFile_files_append fs (dir ++ ["page_" ++ padNum3 imageNum ++ "." ++ ext])
          refine ⟨by rw [hdirs, addFile_dirs], ⟨t0 ++ t1, by rw [ht1, ht0, List.append_assoc], ?_⟩,
            ⟨[dir ++ ["page_" ++ padNum3 imageNum ++ "." ++ ext]] ++ u1, by rw [hu1, List.append_assoc], ?_⟩, ?_⟩
          · intro p hp
            rcases List.mem_append.mp hp with hp | hp
            · exact ⟨_, ht0p p hp, himg⟩
            · exact ht1p p hp
          · intro p hp
            rcases List.mem_append.mp hp with hp | hp
            · simp only [List.mem_singleton] at hp
              subst hp
              refine ⟨?_, _, rfl, himg⟩
              rw [ht1]
              exact List.mem_append_left _ (mem_addFile_self _ _)
            · exact hu1p p hp
          · intro h
            rw [hu1] at h
            have := congrArg List.length h
            simp at this
    · exact ⟨rfl, ⟨[], by simp⟩, ⟨[], by simp⟩, fun _ => rfl⟩

theorem findImagesLoop_finalIndex_le (fetch : String → Bool) (base : String) (dir : DiskPath)
    (start : Nat) :
    ∀ (fuel imageNum consec : Nat) (fs : FS) (acc : List DiskPath),
      imageNum ≤ start + 1000 →
      (findImagesLoop fetch base dir start fuel imageNum consec fs acc).2.2 ≤ start + 1001 := by
  intro fuel
  induction fuel with
  | zero =>
    intro imageNum consec fs acc h
    simp only [findImagesLoop]
    split
    · rcases hfind : firstSuccess fetch base imageNum with - | ext <;> simp only [hfind] <;>
        split <;> (dsimp only; omega)
    · dsimp only; omega
  | succ fuel ih =>
    intro imageNum consec fs acc h
    simp only [findImagesLoop]
    split
    · rcases hfind : firstSuccess fetch base imageNum with - | ext <;> simp only [hfind]
      · split
        · dsimp only; omega
        · rename_i hbound
          exact ih (imageNum + 1) (consec + 1) fs acc (by omega)
      · split
        · dsimp only; omega
        · rename_i hbound
          exact ih (imageNum + 1) 0 _ _ (by omega)
    · dsimp only; omega

theorem findImagesLoop_allTrue (base : String) (dir : DiskPath) (start : Nat) :
    ∀ (fuel imageNum consec : Nat) (fs : FS) (acc : List DiskPath),
      consec < 5 → imageNum + fuel = start + 1000 →
      (findImagesLoop (fun _ => true) base dir start fuel imageNum consec fs acc).2.2 =
        start + 1001 := by
  intro fuel
  induction fuel with
  | zero =>
    intro imageNum consec fs acc hc hsum
    have hfind : firstSuccess (fun _ => true) base imageNum = some "jpg" := rfl
    simp only [findImagesLoop, if_pos hc, hfind]
    rw [if_pos (by omega)]
    dsimp only
    omega
  | succ fuel ih =>
    intro imageNum consec fs acc hc hsum
    have hfind : firstSuccess (fun _ => true) base imageNum = some "jpg" := rfl
    simp only [findImagesLoop, if_pos hc, hfind]
    rw [if_neg (by omega)]
    exact ih (imageNum + 1) 0 _ _ (by omega) (by omega)

theorem findImagesLoop_allFalse (base : String) (dir : DiskPath) (start : Nat) :
    ∀ (k fuel imageNum : Nat) (fs : FS) (acc : List DiskPath),
      k ≤ 5 → k ≤ fuel → imageNum + k ≤ start + 1000 →
      (findImagesLoop (fun _ => false) base dir start fuel imageNum (5 - k) fs acc).2.2 =
        imageNum + k := by
  intro k
  induction k with
  | zero =>
    intro fuel imageNum fs acc _ _ _
    cases fuel <;>
      · simp only [findImagesLoop]
        rw [if_neg (by omega)]
        dsimp only
        omega
  | succ k ih =>
    intro fuel imageNum fs acc hk hfuel hbound
    have hc : 5 - (k + 1) < 5 := by omega
    have hfind : firstSuccess (fun _ => false) base imageNum = none := rfl
    cases fuel with
    | zero => omega
    | succ fuel' =>
      simp only [findImagesLoop, if_pos hc, hfind]
      rw [if_neg (by omega)]
      have hstep : 5 - (k + 1) + 1 = 5 - k := by omega
      rw [hstep, ih fuel' (imageNum + 1) fs acc (by omega) (by omega) (by omega)]
      omega

/-! ## Recents and cache lemmas -/

theorem dedupBySeries_sublist : ∀ (l : List RecentChapter) (seen : List String),
    (dedupBySeries l seen).Sublist l
  | [], _ => List.Sublist.slnil
  | c :: cs, seen => by
    simp only [dedupBySeries]
    split
    · exact (dedupBySeries_sublist cs seen).cons c
    · exact (dedupBySeries_sublist cs (c.series :: seen)).cons₂ c

theorem mem_dedupBySeries_seen :
    ∀ {l : List RecentChapter} {seen : List String} {x : RecentChapter},
      x ∈ dedupBySeries l seen → x.series ∉ seen
  | [], _, x => by simp [dedupBySeries]
  | c :: cs, seen, x => by
    simp only [dedupBySeries]
    split
    · exact mem_dedupBySeries_seen
    · rename_i hc
      intro hx
      rcases List.mem_cons.mp hx with rfl | hx
      · exact hc
      · intro hseen
        exact mem_dedupBySeries_seen hx (by simp [hseen])

theorem dedupBySeries_pairwise : ∀ (l : List RecentChapter) (seen : List String),
    (dedupBySeries l seen).Pairwise (fun a b => a.series ≠ b.series)
  | [], _ => List.Pairwise.nil
  | c :: cs, seen => by
    simp only [dedupBySeries]
    split
    · exact dedupBySeries_pairwise cs seen
    · refine List.pairwise_cons.mpr ⟨?_, dedupBySeries_pairwise cs (c.series :: seen)⟩
      intro z hz heq
      apply mem_dedupBySeries_seen hz
      rw [← heq]
      exact List.mem_cons_self _ _

theorem pyIndex_eq_none {l : List String} {x : String} (h : x ∉ l) : pyIndex l x = none := by
  induction l with
  | nil => rfl
  | cons a rest ih =>
    have ha : (a == x) = false := by
      simp only [beq_eq_false_iff_ne]
      intro heq
      exact h (by simp [heq])
    simp only [pyIndex, ha, if_neg]
    rw [ih (fun hx => h (by simp [hx]))]
    rfl

theorem pyIndex_append_cons (pre post : List String) (cur : String) (hpre : cur ∉ pre) :
    pyIndex (pre ++ cur :: post) cur = some pre.length := by
  induction pre with
  | nil => simp [pyIndex]
  | cons a pre ih =>
    have ha : (a == cur) = false := by
      simp only [beq_eq_false_iff_ne]
      intro heq
      exact hpre (by simp [heq])
    show pyIndex (a :: (pre ++ cur :: post)) cur = some (pre.length + 1)
    simp only [pyIndex, ha, Bool.false_eq_true, if_false]
    rw [ih (fun hx => hpre (by simp [hx]))]
    rfl

theorem find_all_images_finalIndex (fetch : String → Bool) (outputDir : DiskPath)
    (base : String) (start : Nat) (series chapter : String) (fs : FS) :
    (find_all_images fetch outputDir base start series chapter fs).finalIndex =
      (findImagesLoop fetch base (chapterDirOf outputDir series chapter) start 1000 start 0
        (mkdirAll fs (chapterDirOf outputDir series chapter)) []).2.2 := by
  unfold find_all_images
  dsimp only
  split <;> rfl

/-! ## Claim theorems -/

/-- C4: for every fetch oracle, template and start index, a probe run of
`find_all_images` performs only finitely many index steps — the final
loop index never exceeds `startIndex + 1001`, so no index beyond the
safety limit `startIndex + 1000` is ever attempted.  With an all-success
oracle (no five consecutive misses ever occur) the safety bound alone
stops the run, at final index exactly `startIndex + 1001`; with an
all-failure oracle (every single fetch fails) the run still terminates,
after the five consecutive misses at `startIndex + 5`. -/
theorem probe_run_bounded_by_safety_limit (outputDir : DiskPath) (base : String)
    (start : Nat) (series chapter : String) (fs : FS) :
    (∀ fetch : String → Bool,
      (find_all_images fetch outputDir base start series chapter fs).finalIndex ≤
        start + 1001) ∧
    (find_all_images (fun _ => true) outputDir base start series chapter fs).finalIndex =
      start + 1001 ∧
    (find_all_images (fun _ => false) outputDir base start series chapter fs).finalIndex =
      start + 5 := by
  refine ⟨?_, ?_, ?_⟩
  · intro fetch
    rw [find_all_images_finalIndex]
    exact findImagesLoop_finalIndex_le fetch base _ start 1000 start 0 _ [] (by omega)
  · rw [find_all_images_finalIndex]
    exact findImagesLoop_allTrue base _ start 1000 start 0 _ [] (by omega) (by omega)
  · rw [find_all_images_finalIndex]
    have h5 : (5 : Nat) - 5 = 0 := rfl
    have hlem := findImagesLoop_allFalse base (chapterDirOf outputDir series chapter) start 5
      1000 start (mkdirAll fs (chapterDirOf outputDir series chapter)) []
      (by omega) (by omega) (by omega)
    rw [h5] at hlem
    exact hlem

/-- C2 counterexample: a zero-page probe run does not remove the chapter
directory it created.  With an all-miss fetch oracle on an empty store,
the run saves no pages, yet the chapter directory is still present in
the resulting filesystem — nothing in `find_all_images` deletes it. -/
theorem zero_page_run_directory_cex :
    (find_all_images (fun _ => false) ["downloads"] "https://host/x/" 0 "S" "1"
      ⟨[], []⟩).files = [] ∧
    chapterDirOf ["downloads"] "S" "1" ∈
      (find_all_images (fun _ => false) ["downloads"] "https://host/x/" 0 "S" "1"
        ⟨[], []⟩).fs.dirs := by
  decide

/-- C2 amended: a probe run that saves zero pages writes no completion
marker, and the chapter directory created for the attempt remains on
disk afterwards (the code has no cleanup path). -/
theorem zero_page_run_leaves_directory (fetch : String → Bool) (outputDir : DiskPath)
    (base : String) (start : Nat) (series chapter : String) (fs : FS)
    (h : (find_all_images fetch outputDir base start series chapter fs).files = []) :
    (find_all_images fetch outputDir base start series chapter fs).markerTouched = false ∧
    chapterDirOf outputDir series chapter ∈
      (find_all_images fetch outputDir base start series chapter fs).fs.dirs := by
  obtain ⟨hdirs, -, -, -⟩ :=
    findImagesLoop_spec fetch base (chapterDirOf outputDir series chapter) start 1000 start 0
      (mkdirAll fs (chapterDirOf outputDir series chapter)) []
  simp only [find_all_images] at h ⊢
  split at h <;> rename_i hemp
  · rw [if_pos hemp]
    exact ⟨rfl, by rw [hdirs]; exact mkdirAll_self_mem _ _⟩
  · exact absurd (List.isEmpty_iff.mpr h) hemp

/-- C2 witness for the amended theorem at a concrete zero-page run. -/
theorem zero_page_run_leaves_directory_witness :
    (find_all_images (fun _ => false) ["downloads"] "https://host/x/" 0 "S" "1"
      ⟨[], []⟩).markerTouched = false ∧
    chapterDirOf ["downloads"] "S" "1" ∈
      (find_all_images (fun _ => false) ["downloads"] "https://host/x/" 0 "S" "1"
        ⟨[], []⟩).fs.dirs :=
  zero_page_run_leaves_directory (fun _ => false) ["downloads"] "https://host/x/" 0 "S" "1"
    ⟨[], []⟩ (by decide)

theorem mem_addFile_of_mem {fs : FS} {q : DiskPath} (p : DiskPath) (h : q ∈ fs.files) :
    q ∈ (addFile fs p).files := by
  unfold addFile
  split
  · exact h
  · exact List.mem_append_left _ h

theorem get_chapter_status_of_mem {fs : FS} {outputDir : DiskPath} {s c : String}
    (h : outputDir ++ [s, "chapter_" ++ c] ∈ fs.dirs) :
    get_chapter_status fs outputDir s c =
      ⟨true, decide ((outputDir ++ [s, "chapter_" ++ c] ++ ["completed"]) ∈ fs.files),
        countImages fs (outputDir ++ [s, "chapter_" ++ c])⟩ := by
  unfold get_chapter_status
  dsimp only
  rw [if_pos h]

theorem get_chapter_status_of_not_mem {fs : FS} {outputDir : DiskPath} {s c : String}
    (h : outputDir ++ [s, "chapter_" ++ c] ∉ fs.dirs) :
    get_chapter_status fs outputDir s c = ⟨false, false, 0⟩ := by
  unfold get_chapter_status
  dsimp only
  rw [if_neg h]

theorem countImages_eq_of_files_eq {fs fs' : FS} {dir : DiskPath}
    (h : fs'.files = fs.files) : countImages fs' dir = countImages fs dir := by
  unfold countImages
  rw [h]

/-- A probe run only touches its own chapter directory: extending the
store with that directory and files inside it preserves the per-chapter
completion invariant everywhere. -/
theorem statusInv_extend {fs fs' : FS} {outputDir cdir : DiskPath} {s c : String}
    (hwf : fsWF fs)
    (hdirs : ∀ x : DiskPath, x ∈ fs'.dirs ↔ x ∈ fs.dirs ∨ x = cdir)
    (hadd : ∃ add, fs'.files = fs.files ++ add ∧ ∀ p ∈ add, p.dropLast = cdir)
    (hcnt : outputDir ++ [s, "chapter_" ++ c] = cdir →
      1 ≤ countImages fs' cdir ∨ fs'.files = fs.files)
    (hinv : statusInv fs outputDir s c) : statusInv fs' outputDir s c := by
  obtain ⟨add, hfiles, haddp⟩ := hadd
  unfold statusInv at hinv ⊢
  intro hcomp
  by_cases hqin : outputDir ++ [s, "chapter_" ++ c] ∈ fs'.dirs
  swap
  · rw [get_chapter_status_of_not_mem hqin] at hcomp
    exact absurd hcomp (by simp)
  rw [get_chapter_status_of_mem hqin] at hcomp ⊢
  simp only [decide_eq_true_eq] at hcomp
  by_cases hqc : outputDir ++ [s, "chapter_" ++ c] = cdir
  · rcases hcnt hqc with hpos | hsame
    · simpa [hqc] using hpos
    · have hmarker : outputDir ++ [s, "chapter_" ++ c] ++ ["completed"] ∈ fs.files := by
        rw [← hsame]; exact hcomp
      have hqfs : outputDir ++ [s, "chapter_" ++ c] ∈ fs.dirs := by
        have := hwf _ hmarker
        rwa [List.dropLast_concat] at this
      rw [get_chapter_status_of_mem hqfs] at hinv
      simp only [decide_eq_true_eq] at hinv
      have := hinv hmarker
      simpa [countImages_eq_of_files_eq hsame] using this
  · have hqfs : outputDir ++ [s, "chapter_" ++ c] ∈ fs.dirs :=
      ((hdirs _).mp hqin).resolve_right hqc
    have hmarker : outputDir ++ [s, "chapter_" ++ c] ++ ["completed"] ∈ fs.files := by
      rw [hfiles] at hcomp
      rcases List.mem_append.mp hcomp with h | h
      · exact h
      · have := haddp _ h
        rw [List.dropLast_concat] at this
        exact absurd this hqc
    rw [get_chapter_status_of_mem hqfs] at hinv
    simp only [decide_eq_true_eq] at hinv
    have hpre := hinv hmarker
    calc 1 ≤ countImages fs (outputDir ++ [s, "chapter_" ++ c]) := hpre
    _ ≤ countImages fs' (outputDir ++ [s, "chapter_" ++ c]) := by
        unfold countImages
        rw [hfiles]
        exact countImages_mono

theorem run_preserves_statusInv (fetch : String → Bool) (outputDir : DiskPath)
    (base : String) (start : Nat) (series chapter s c : String) (fs : FS)
    (hwf : fsWF fs) (hinv : statusInv fs outputDir s c) :
    statusInv (find_all_images fetch outputDir base start series chapter fs).fs
      outputDir s c := by
  obtain ⟨hdirs, ⟨t, ht, htp⟩, ⟨u, hu, hup⟩, hempty⟩ :=
    findImagesLoop_spec fetch base (chapterDirOf outputDir series chapter) start 1000 start 0
      (mkdirAll fs (chapterDirOf outputDir series chapter)) []
  rw [List.nil_append] at hu
  unfold find_all_images
  dsimp only
  split <;> rename_i hemp
  · have hr1 : (findImagesLoop fetch base (chapterDirOf outputDir series chapter) start 1000
        start 0 (mkdirAll fs (chapterDirOf outputDir series chapter)) []).1 = [] :=
      List.isEmpty_iff.mp hemp
    have hfs1 := hempty hr1
    refine @statusInv_extend fs _ outputDir (chapterDirOf outputDir series chapter) s c
      hwf ?_ ?_ ?_ hinv
    · intro x
      rw [hfs1]
      exact mem_mkdirAll_dirs
    · exact ⟨[], by rw [hfs1, mkdirAll_files, List.append_nil], by simp⟩
    · intro _
      right
      rw [hfs1, mkdirAll_files]
  · refine @statusInv_extend fs _ outputDir (chapterDirOf outputDir series chapter) s c
      hwf ?_ ?_ ?_ hinv
    · intro x
      rw [addFile_dirs, hdirs]
      exact mem_mkdirAll_dirs
    · obtain ⟨t2, ht2, ht2p⟩ :=
        addFile_files_append
          (findImagesLoop fetch base (chapterDirOf outputDir series chapter) start 1000 start 0
            (mkdirAll fs (chapterDirOf outputDir series chapter)) []).2.1
          (chapterDirOf outputDir series chapter ++ ["completed"])
      refine ⟨t ++ t2, ?_, ?_⟩
      · rw [ht2, ht, mkdirAll_files, List.append_assoc]
      · intro p hp
        rcases List.mem_append.mp hp with hp | hp
        · obtain ⟨name, rfl, -⟩ := htp p hp
          exact List.dropLast_concat
        · rw [ht2p p hp]
          exact List.dropLast_concat
    · intro hqc
      left
      have hne : (findImagesLoop fetch base (chapterDirOf outputDir series chapter) start 1000
          start 0 (mkdirAll fs (chapterDirOf outputDir series chapter)) []).1 ≠ [] := by
        intro hnil
        exact absurd (List.isEmpty_iff.mpr hnil) hemp
      obtain ⟨f, hf⟩ := List.exists_mem_of_ne_nil _ hne
      obtain ⟨hfmem, name, rfl, himg⟩ := hup f (hu ▸ hf)
      have hfm : chapterDirOf outputDir series chapter ++ [name] ∈
          (addFile (findImagesLoop fetch base (chapterDirOf outputDir series chapter) start
              1000 start 0 (mkdirAll fs (chapterDirOf outputDir series chapter)) []).2.1
            (chapterDirOf outputDir series chapter ++ ["completed"])).files :=
        mem_addFile_of_mem _ hfmem
      exact mem_count_pos hfm himg

/-- C3: the completion marker is written by a probe run iff the run
saved at least one page; consequently a run on a well-formed store
preserves the per-chapter completion invariant — whenever
`get_chapter_status` reports a chapter complete after the run, its page
count is at least 1. -/
theorem completion_marker_iff_pages (fetch : String → Bool) (outputDir : DiskPath)
    (base : String) (start : Nat) (series chapter s c : String) (fs : FS)
    (hwf : fsWF fs) :
    ((find_all_images fetch outputDir base start series chapter fs).markerTouched = true ↔
      (find_all_images fetch outputDir base start series chapter fs).files ≠ []) ∧
    (statusInv fs outputDir s c →
      statusInv (find_all_images fetch outputDir base start series chapter fs).fs
        outputDir s c) := by
  constructor
  · unfold find_all_images
    dsimp only
    split <;> rename_i hemp
    · simp [List.isEmpty_iff.mp hemp]
    · simp only [ne_eq]
      exact iff_of_true trivial (fun hnil => hemp (List.isEmpty_iff.mpr hnil))
  · exact run_preserves_statusInv fetch outputDir base start series chapter s c fs hwf

/-- C3 witness: the theorem applied at a concrete run (all fetches miss,
empty well-formed store). -/
theorem completion_marker_iff_pages_witness :
    ((find_all_images (fun _ => false) ["downloads"] "https://host/x/" 0 "S" "1"
      ⟨[], []⟩).markerTouched = true ↔
      (find_all_images (fun _ => false) ["downloads"] "https://host/x/" 0 "S" "1"
        ⟨[], []⟩).files ≠ []) ∧
    (statusInv ⟨[], []⟩ ["downloads"] "S" "1" →
      statusInv (find_all_images (fun _ => false) ["downloads"] "https://host/x/" 0 "S" "1"
        ⟨[], []⟩).fs ["downloads"] "S" "1") :=
  completion_marker_iff_pages (fun _ => false) ["downloads"] "https://host/x/" 0 "S" "1"
    "S" "1" ⟨[], []⟩ (fun f hf => absurd hf (List.not_mem_nil f))

/-- C1: the spec requires that a key already `downloading` is never
given download work again by a second prefetch trigger.  The code
violates this: the in-memory check in `trigger_background_download`
only skips re-writing the status record, while the downloader is
invoked for chapters `starting+1 .. starting+3` unconditionally.  At
the failing input — a second trigger for series "S" with starting
chapter 1 while the first trigger's run is still in flight (keys
S_2..S_4 are `downloading`, no completion marker on disk yet) — the
second trigger queues download work for chapters [2, 3, 4] again, so
the work for key S_2 is queued twice, not at most once. -/
theorem prefetch_trigger_requeues_inflight_key :
    (trigger_background_download "S" 1 (fun _ => false) (fun _ => true) []).queued =
      [2, 3, 4] ∧
    dictGet (trigger_background_download "S" 1 (fun _ => false) (fun _ => true) []).marked
      "S_2" = some ⟨2, DLStatus.downloading, 0, "Starting download..."⟩ ∧
    (trigger_background_download "S" 1 (fun _ => false) (fun _ => true)
        (trigger_background_download "S" 1 (fun _ => false) (fun _ => true) []).marked).queued =
      [2, 3, 4] := by
  decide

set_option maxRecDepth 8000 in
/-- C5 counterexample: in the gap scenario (pages exist exactly at
indices 0-4 and 6, nothing beyond), the run does not stop after index 10
as claimed: the success at index 6 resets the consecutive-miss counter,
so only indices 7-11 accumulate the five consecutive misses — the
loop's final `image_num` is 12, i.e. the last attempted index is 11,
not 10. -/
theorem gap_scenario_stop_index_cex :
    scenarioRun.finalIndex = 12 ∧ scenarioRun.finalIndex ≠ 10 + 1 := by
  decide

set_option maxRecDepth 100000 in
/-- C5 amended: the resolver on the scenario document returns the common
CDN base pattern with start index 0; the probe run from there downloads
exactly the pages with indices 0,1,2,3,4,6 (the counter resets to zero
on the success at 6) and stops after index 11, when the misses at 7-11
reach the threshold of five. -/
theorem gap_scenario_resolution_and_run :
    extract_from_ravenscans (fun _ => false) scenarioHtml =
      some ("https://cdn2.ravenscans.org/series-x/chapter-7/", 0) ∧
    scenarioRun.files =
      [["downloads", "Series_X", "chapter_7", "page_000.jpg"],
       ["downloads", "Series_X", "chapter_7", "page_001.jpg"],
       ["downloads", "Series_X", "chapter_7", "page_002.jpg"],
       ["downloads", "Series_X", "chapter_7", "page_003.jpg"],
       ["downloads", "Series_X", "chapter_7", "page_004.jpg"],
       ["downloads", "Series_X", "chapter_7", "page_006.jpg"]] ∧
    scenarioRun.finalIndex = 12 := by
  decide

/-- C6 counterexample: the chapter listing does not use a numeric-aware
natural sort key: on a directory holding chapter_2, chapter_1.1,
chapter_10, chapter_1, `scan_series` does not return the claimed order
chapter_1 < chapter_1.1 < chapter_2 < chapter_10. -/
theorem chapter_listing_natural_sort_cex :
    (scan_series_chapters sortFS ["downloads"] "s").map (fun ci => ci.name) ≠
      ["chapter_1", "chapter_1.1", "chapter_2", "chapter_10"] := by
  decide

/-- C6 amended: chapter listing and page enumeration sort by plain
lexicographic string comparison (Python `sort()` on names): every
listing and page enumeration is lexicographically ordered, and the
example directory lists as chapter_1, chapter_1.1, chapter_10,
chapter_2 — chapter_10 before chapter_2. -/
theorem chapter_listing_lexicographic :
    (scan_series_chapters sortFS ["downloads"] "s").map (fun ci => ci.name) =
      ["chapter_1", "chapter_1.1", "chapter_10", "chapter_2"] ∧
    (∀ (fs : FS) (d : DiskPath) (sname : String),
      (scan_series_chapters fs d sname).Pairwise
        (fun a b => pyStrLe a.name b.name = true)) ∧
    (∀ (fs : FS) (dir : DiskPath),
      (get_image_files fs dir).Pairwise (fun a b => pyStrLe a b = true)) := by
  refine ⟨by decide, ?_, ?_⟩
  · intro fs d sname
    unfold scan_series_chapters
    dsimp only
    exact pySortBy_pairwise
      (fun (a b : ChapterInfo) => pyStrLe_total a.name b.name)
      (fun (a b c : ChapterInfo) h1 h2 => pyStrLe_trans h1 h2) _
  · intro fs dir
    unfold get_image_files
    exact pySortBy_pairwise (fun a b => pyStrLe_total a b)
      (fun (a b c : String) h1 h2 => pyStrLe_trans h1 h2) _

set_option maxRecDepth 20000 in
/-- C7 counterexample: on a document where the direct image-URL scans
find nothing but the looser substring scan finds a CDN reference, and
every one of the six probes fails, resolution does not fail — it
returns a template with start index 0. -/
theorem probe_fallback_notfound_cex :
    findCdnDirect looseHtml = [] ∧ findMangaDirect looseHtml = [] ∧
    findCdnAlt looseHtml ≠ [] ∧
    extract_from_ravenscans (fun _ => false) looseHtml =
      some ("https://cdn2.ravenscans.org/series-x/chapter-7/", 0) := by
  decide

/-- C7 amended: when the direct scans find no matches, the looser CDN
reference scan finds one, and none of the six probes (indices 0,1,2
against .jpg, then .png) succeeds, resolution still succeeds:
`_detect_start_number` defaults to 0 and the resolver returns the
reference's base pattern with start index 0 instead of failing. -/
theorem probe_fallback_defaults_to_zero (probe : String → Bool) (html : String)
    (m : CdnMatch) (ms : List CdnMatch)
    (hdirect : findCdnDirect html = [])
    (hmanga : findMangaDirect html = [])
    (halt : findCdnAlt html = m :: ms)
    (hjpg : ∀ n ∈ [0, 1, 2], probe (cdnBase m ++ toString n ++ ".jpg") = false)
    (hpng : ∀ n ∈ [0, 1, 2], probe (cdnBase m ++ toString n ++ ".png") = false) :
    extract_from_ravenscans probe html = some (cdnBase m, 0) := by
  have h1 : [0, 1, 2].find? (fun n => probe (cdnBase m ++ toString n ++ ".jpg")) = none :=
    List.find?_eq_none.mpr (fun n hn => by simp [hjpg n hn])
  have h2 : [0, 1, 2].find? (fun n => probe (cdnBase m ++ toString n ++ ".png")) = none :=
    List.find?_eq_none.mpr (fun n hn => by simp [hpng n hn])
  have hdet : detect_start_number probe (cdnBase m) = some 0 := by
    unfold detect_start_number
    rw [h1, h2]
  unfold extract_from_ravenscans
  rw [hdirect, hmanga, halt]
  dsimp only
  rw [hdet]

set_option maxRecDepth 20000 in
/-- C7 witness: the amended theorem at the concrete loose document with
every probe failing. -/
theorem probe_fallback_defaults_to_zero_witness :
    extract_from_ravenscans (fun _ => false) looseHtml =
      some (cdnBase ⟨"cdn2", "series-x", "chapter-7", ""⟩, 0) :=
  probe_fallback_defaults_to_zero (fun _ => false) looseHtml
    ⟨"cdn2", "series-x", "chapter-7", ""⟩ [] (by decide) (by decide) (by decide)
    (by decide) (by decide)

/-- C8: over a cached chapter list, `get_next_chapters` returns exactly
the slice of at most `count` chapter numbers strictly after the first
occurrence of the current number; when the current number is absent from
the cached list it returns the empty list; in particular over the cached
list ["1","1.1","1.2","2"], requesting 2 chapters after "1.1" yields
["1.2","2"]. -/
theorem get_next_chapters_slice :
    (∀ (cache : CacheDict) (seriesName current : String) (count : Nat)
      (chapters : List ChapterEntry) (pre post : List String),
      get_chapters cache seriesName = some chapters →
      chapters.map (fun ch => ch.number) = pre ++ current :: post →
      current ∉ pre →
      get_next_chapters cache seriesName current count = post.take count) ∧
    (∀ (cache : CacheDict) (seriesName current : String) (count : Nat)
      (chapters : List ChapterEntry),
      get_chapters cache seriesName = some chapters →
      current ∉ chapters.map (fun ch => ch.number) →
      get_next_chapters cache seriesName current count = []) ∧
    get_next_chapters c8Cache "Series" "1.1" 2 = ["1.2", "2"] := by
  refine ⟨?_, ?_, by decide⟩
  · intro cache seriesName current count chapters pre post hc hsplit hpre
    have hne : ¬chapters.isEmpty = true := by
      intro h
      rw [List.isEmpty_iff.mp h] at hsplit
      simp at hsplit
    unfold get_next_chapters
    rw [hc]
    dsimp only
    rw [if_neg hne, hsplit, pyIndex_append_cons pre post current hpre]
    dsimp only
    have hconcat : pre ++ current :: post = (pre ++ [current]) ++ post := by simp
    rw [hconcat]
    have hlen : (pre ++ [current]).length = pre.length + 1 := by simp
    rw [← hlen, List.drop_left]
  · intro cache seriesName current count chapters hc hmem
    unfold get_next_chapters
    rw [hc]
    dsimp only
    by_cases hemp : chapters.isEmpty = true
    · rw [if_pos hemp]
    · rw [if_neg hemp, pyIndex_eq_none hmem]

/-- C8 witness: the theorem's slice part applied at the concrete
scenario cache, and the concrete scenario itself. -/
theorem get_next_chapters_slice_witness :
    get_next_chapters c8Cache "Series" "1.1" 2 = ["1.2", "2"].take 2 ∧
    get_next_chapters c8Cache "Series" "9" 2 = [] :=
  ⟨get_next_chapters_slice.1 c8Cache "Series" "1.1" 2
      [⟨"1", "u1"⟩, ⟨"1.1", "u2"⟩, ⟨"1.2", "u3"⟩, ⟨"2", "u4"⟩] ["1"] ["1.2", "2"]
      (by decide) (by decide) (by decide),
   get_next_chapters_slice.2.1 c8Cache "Series" "9" 2
      [⟨"1", "u1"⟩, ⟨"1.1", "u2"⟩, ⟨"1.2", "u3"⟩, ⟨"2", "u4"⟩] (by decide) (by decide)⟩

/-- C10: `needs_refresh` returns true when the series was never cached,
and also for every cached list in which the current chapter does not
appear — an unknown current chapter always forces a refresh. -/
theorem needs_refresh_unknown_current :
    (∀ (cache : CacheDict) (seriesName current : String) (lookahead : Nat),
      get_chapters cache seriesName = none →
      needs_refresh cache seriesName current lookahead = true) ∧
    (∀ (cache : CacheDict) (seriesName current : String) (lookahead : Nat)
      (chapters : List ChapterEntry),
      get_chapters cache seriesName = some chapters →
      current ∉ chapters.map (fun ch => ch.number) →
      needs_refresh cache seriesName current lookahead = true) := by
  constructor
  · intro cache seriesName current lookahead hc
    unfold needs_refresh
    rw [hc]
  · intro cache seriesName current lookahead chapters hc hmem
    unfold needs_refresh
    rw [hc]
    dsimp only
    by_cases hemp : chapters.isEmpty = true
    · rw [if_pos hemp]
    · rw [if_neg hemp, pyIndex_eq_none hmem]

/-- C10 witness: a cached series whose list does not contain the current
chapter "9" is reported as needing a refresh. -/
theorem needs_refresh_unknown_current_witness :
    needs_refresh c8Cache "Series" "9" 3 = true :=
  needs_refresh_unknown_current.2 c8Cache "Series" "9" 3
    [⟨"1", "u1"⟩, ⟨"1.1", "u2"⟩, ⟨"1.2", "u3"⟩, ⟨"2", "u4"⟩] (by decide) (by decide)

/-- C9: every list returned by `load_recent_chapters` and every list
persisted by `save_recent_chapter` has at most 10 entries, at most one
entry per series, and is ordered newest-first by `last_read`; saving
removes any previous entry of the saved series — an entry of that
series in the persisted list can only be the new record itself. -/
theorem recent_chapters_invariants (items : List RecentChapter) (recent : RecentChapter) :
    (load_recent_chapters items).length ≤ 10 ∧
    (load_recent_chapters items).Pairwise (fun a b => a.series ≠ b.series) ∧
    (load_recent_chapters items).Pairwise
      (fun a b => pyStrLe b.last_read a.last_read = true) ∧
    (save_recent_chapter items recent).length ≤ 10 ∧
    (save_recent_chapter items recent).Pairwise (fun a b => a.series ≠ b.series) ∧
    (save_recent_chapter items recent).Pairwise
      (fun a b => pyStrLe b.last_read a.last_read = true) ∧
    (∀ r ∈ save_recent_chapter items recent, r.series = recent.series → r = recent) := by
  have htot : ∀ a b : RecentChapter,
      pyStrLe b.last_read a.last_read = true ∨ pyStrLe a.last_read b.last_read = true :=
    fun a b => pyStrLe_total b.last_read a.last_read
  have htrans : ∀ a b c : RecentChapter,
      pyStrLe b.last_read a.last_read = true → pyStrLe c.last_read b.last_read = true →
      pyStrLe c.last_read a.last_read = true :=
    fun _ _ _ h1 h2 => pyStrLe_trans h2 h1
  have hsort : ∀ l : List RecentChapter,
      (sortByLastReadDesc l).Pairwise (fun a b => pyStrLe b.last_read a.last_read = true) :=
    fun l => pySortBy_pairwise htot htrans l
  have hloaddistinct :
      (load_recent_chapters items).Pairwise (fun a b => a.series ≠ b.series) :=
    List.Pairwise.sublist (List.take_sublist _ _) (dedupBySeries_pairwise _ _)
  have hloadsorted : (load_recent_chapters items).Pairwise
      (fun a b => pyStrLe b.last_read a.last_read = true) :=
    List.Pairwise.sublist
      ((List.take_sublist _ _).trans (dedupBySeries_sublist _ _)) (hsort items)
  have hfilterne : ∀ r ∈ (load_recent_chapters items).filter
      (fun r => !(r.series == recent.series)), r.series ≠ recent.series := by
    intro r hr
    have := (List.mem_filter.mp hr).2
    simpa using this
  have hconsdistinct : (recent :: (load_recent_chapters items).filter
      (fun r => !(r.series == recent.series))).Pairwise (fun a b => a.series ≠ b.series) := by
    refine List.pairwise_cons.mpr ⟨?_, ?_⟩
    · intro z hz
      exact fun h => hfilterne z hz h.symm
    · exact List.Pairwise.sublist (List.filter_sublist _) hloaddistinct
  have hperm : (sortByLastReadDesc (recent :: (load_recent_chapters items).filter
        (fun r => !(r.series == recent.series)))).Perm
      (recent :: (load_recent_chapters items).filter
        (fun r => !(r.series == recent.series))) :=
    pySortBy_perm _ _
  refine ⟨List.length_take_le _ _, hloaddistinct, hloadsorted, List.length_take_le _ _,
    ?_, ?_, ?_⟩
  · exact List.Pairwise.sublist (List.take_sublist _ _)
      ((hperm.pairwise_iff (fun h heq => h heq.symm)).mpr hconsdistinct)
  · exact List.Pairwise.sublist (List.take_sublist _ _) (hsort _)
  · intro r hr hser
    have hr1 : r ∈ sortByLastReadDesc (recent :: (load_recent_chapters items).filter
        (fun r => !(r.series == recent.series))) :=
      (List.take_sublist _ _).mem hr
    have hr2 := hperm.mem_iff.mp hr1
    rcases List.mem_cons.mp hr2 with rfl | hr3
    · rfl
    · exact absurd hser (hfilterne r hr3)

/-- C9 witness: the theorem applied at a concrete recents file (two
entries for series A, one for B) and a new entry for series A. -/
theorem recent_chapters_invariants_witness :
    (⟨"A", "c9", "2024-04-01", 3⟩ : RecentChapter) = ⟨"A", "c9", "2024-04-01", 3⟩ ∧
    (load_recent_chapters
      [⟨"A", "c1", "2024-01-01", 0⟩, ⟨"A", "c2", "2024-02-01", 0⟩,
       ⟨"B", "c3", "2024-03-01", 0⟩]).length ≤ 10 :=
  ⟨(recent_chapters_invariants
      [⟨"A", "c1", "2024-01-01", 0⟩, ⟨"A", "c2", "2024-02-01", 0⟩,
       ⟨"B", "c3", "2024-03-01", 0⟩] ⟨"A", "c9", "2024-04-01", 3⟩).2.2.2.2.2.2
      ⟨"A", "c9", "2024-04-01", 3⟩ (by decide) rfl,
   (recent_chapters_invariants
      [⟨"A", "c1", "2024-01-01", 0⟩, ⟨"A", "c2", "2024-02-01", 0⟩,
       ⟨"B", "c3", "2024-03-01", 0⟩] ⟨"A", "c9", "2024-04-01", 3⟩).1⟩

end RipRaven
